import Mathlib

/-!
Verification development for a task-tracking application's reminder
subsystem and task store.

The embedding covers:
* the `Task` record and the IndexedDB-backed store operations
  (`getAllTasks`, `addTask`, `updateTask`, `deleteTask`);
* the reminder scanner `checkReminders` (throttle, per-task eligibility
  check, in-memory dedup set, notification/update effects), modelled as
  explicit state passing over a scanner state;
* the effect that clears dedup entries for completed tasks
  (`clearCompleted`);
* the `useTasks` hook's `updateTask` wrapper (`hookUpdateTask`).

Wall-clock times are modelled as integer milliseconds since the Unix
epoch, in a fixed (UTC) timezone; ISO timestamp strings such as
`created_at` are represented by the integer millisecond value they
denote, since the ISO encoding is order-isomorphic to it.
-/

namespace TodoApp

/-- The sole persistent entity of the application (interface `Task`). -/
structure Task where
  id : String
  title : String
  description : String
  due_date : Option String
  due_time : Option String
  completed : Bool
  reminder_shown : Bool
  created_at : Int
  updated_at : Int
deriving DecidableEq, Repr

/-- A partial update (`Partial<Task>`): each field is present or absent.
`due_date`/`due_time` are nullable in `Task`, so a present update for them
carries an `Option String`. -/
structure TaskUpdate where
  id : Option String := none
  title : Option String := none
  description : Option String := none
  due_date : Option (Option String) := none
  due_time : Option (Option String) := none
  completed : Option Bool := none
  reminder_shown : Option Bool := none
  created_at : Option Int := none
  updated_at : Option Int := none
deriving DecidableEq, Repr

/-! ### Due-timestamp computation

`checkReminders` parses `due_date` with `split('-')` and `due_time` with
`split(':')`, maps `Number` over the parts, and builds
`new Date(year, month - 1, day, hours, minutes, 0).getTime()`.
We model the split at the character level, `Number` on a split part as a
digit-string parse (the empty part yields 0, as `Number("")` does; a part
with a non-digit yields `none`, standing for `NaN`, which makes every
later comparison false so the task is never selected), and the `Date`
constructor by the proleptic-Gregorian civil-day count with JavaScript's
month/day/hour rollover semantics, at UTC offset zero. -/

/-- Split a character list at every occurrence of the separator,
mirroring JavaScript `String.prototype.split` with a one-character
separator. -/
def splitOnChar (sep : Char) : List Char → List (List Char)
  | [] => [[]]
  | c :: rest =>
    let r := splitOnChar sep rest
    if c = sep then [] :: r
    else
      match r with
      | [] => [[c]]
      | g :: gs => (c :: g) :: gs

/-- JavaScript `Number` applied to one split part of a date/time string:
a (possibly empty) digit string yields its value, anything else yields
`none` (NaN). -/
def jsNumberOfPart (cs : List Char) : Option Int :=
  (cs.foldl
    (fun acc c =>
      match acc with
      | some n => if c.isDigit then some (n * 10 + (c.toNat - 48)) else none
      | none => none)
    (some 0)).map Int.ofNat

/-- Days from the epoch 1970-01-01 for a civil date (month `1..12`),
Gregorian calendar. -/
def daysFromCivil (y m d : Int) : Int :=
  let y1 := if m ≤ 2 then y - 1 else y
  let era := y1.fdiv 400
  let yoe := y1 - era * 400
  let mp := if 2 < m then m - 3 else m + 9
  let doy := (153 * mp + 2).fdiv 5 + (d - 1)
  let doe := yoe * 365 + yoe.fdiv 4 - yoe.fdiv 100 + doy
  era * 146097 + doe - 719468

/-- `new Date(y, mo - 1, d, h, mi, 0).getTime()` at UTC offset zero:
the month index rolls over into the year, and out-of-range day, hour and
minute components add linearly, as in JavaScript `MakeDay`/`MakeTime`. -/
def dueTimeMs (y mo d h mi : Int) : Int :=
  let mIdx := mo - 1
  let y2 := y + mIdx.fdiv 12
  let m2 := mIdx.emod 12 + 1
  daysFromCivil y2 m2 d * 86400000 + h * 3600000 + mi * 60000

/-- Parse a `due_date`/`due_time` pair into the combined due timestamp:
destructure the first three `-`-parts and the first two `:`-parts, as
`const [year, month, day] = ...` / `const [hours, minutes] = ...` do; a
missing or non-numeric component yields `none` (invalid date). -/
def parseDueMs (d t : String) : Option Int :=
  match (splitOnChar '-' d.data).map jsNumberOfPart,
        (splitOnChar ':' t.data).map jsNumberOfPart with
  | some y :: some mo :: some da :: _, some h :: some mi :: _ =>
    some (dueTimeMs y mo da h mi)
  | _, _ => none

/-- The combined due timestamp of a task, when both due fields are
present and parse. -/
def taskDueMs (task : Task) : Option Int :=
  match task.due_date, task.due_time with
  | some d, some t => parseDueMs d t
  | _, _ => none

/-! ### The reminder scanner (`useReminders` / `checkReminders`) -/

/-- The mutable refs of `useReminders`: the in-memory dedup set
`checkedTasksRef` (a set of task ids) and `lastCheckTimeRef`. -/
structure ScannerState where
  checkedTasks : List String
  lastCheckTime : Int
deriving DecidableEq, Repr

/-- An externally visible side effect dispatched by the scanner:
`onReminderTriggered(task)` or `updateTask(id, updates)`. -/
inductive Effect where
  | notify (task : Task)
  | update (id : String) (u : TaskUpdate)
deriving DecidableEq, Repr

/-- The partial update the delivery pipeline writes:
`{ reminder_shown: true }`. -/
def reminderShownUpdate : TaskUpdate := { reminder_shown := some true }

/-- The `tasks.forEach` loop body of `checkReminders`, iterated over the
task list: threads the dedup set and emits the dispatched effects in
order. Guard order follows the source: completed / already shown /
missing due component, then the dedup set, then the parse and the
time-window check `|due - now| ≤ 60000 && due ≤ now`. -/
def scanTasks (S : List String) (now : Int) : List Task → List String × List Effect
  | [] => (S, [])
  | task :: rest =>
    if task.completed || task.reminder_shown || task.due_date.isNone
        || task.due_time.isNone then
      scanTasks S now rest
    else if S.contains task.id then
      scanTasks S now rest
    else
      match taskDueMs task with
      | none => scanTasks S now rest
      | some T =>
        if (T - now).natAbs ≤ 60000 ∧ T ≤ now then
          ((scanTasks (task.id :: S) now rest).1,
            Effect.notify task :: Effect.update task.id reminderShownUpdate ::
              (scanTasks (task.id :: S) now rest).2)
        else
          scanTasks S now rest

/-- One invocation of `checkReminders`: the throttle returns immediately
if the previous evaluation is less than 1000 ms old; otherwise
`lastCheckTime` is set to `now` and the task list is scanned. -/
def checkReminders (st : ScannerState) (tasks : List Task) (now : Int) :
    ScannerState × List Effect :=
  if now - st.lastCheckTime < 1000 then (st, [])
  else
    ({ checkedTasks := (scanTasks st.checkedTasks now tasks).1, lastCheckTime := now },
      (scanTasks st.checkedTasks now tasks).2)

/-- The second effect of `useReminders`: delete from the dedup set the id
of every completed task in the current list. -/
def clearCompleted (S : List String) (tasks : List Task) : List String :=
  ((tasks.filter (fun t => t.completed)).map (fun t => t.id)).foldl
    (fun s i => s.filter (fun j => j != i)) S

/-- An event in the scanner's process lifetime: a timer tick (running
`checkReminders` against the current task list at the current time), or a
task-list change (running the completed-id cleanup effect). -/
inductive AppEvent where
  | tick (now : Int) (tasks : List Task)
  | sync (tasks : List Task)
deriving Repr

/-- The task list an event carries. -/
def AppEvent.taskList : AppEvent → List Task
  | .tick _ tasks => tasks
  | .sync tasks => tasks

/-- Run one event against the scanner state. -/
def stepEvent (st : ScannerState) : AppEvent → ScannerState × List Effect
  | .tick now tasks => checkReminders st tasks now
  | .sync tasks => ({ st with checkedTasks := clearCompleted st.checkedTasks tasks }, [])

/-- Run a sequence of events, concatenating the dispatched effects in
order. -/
def runEvents (st : ScannerState) : List AppEvent → ScannerState × List Effect
  | [] => (st, [])
  | ev :: rest =>
    ((runEvents (stepEvent st ev).1 rest).1,
      (stepEvent st ev).2 ++ (runEvents (stepEvent st ev).1 rest).2)

/-- The id an effect concerns. -/
def Effect.idOf : Effect → String
  | .notify task => task.id
  | .update i _ => i

/-- Whether an effect concerns the given task id. -/
def Effect.touchesId (e : Effect) (i : String) : Bool :=
  e.idOf == i

/-! ### The task store (`DatabaseService`)

The IndexedDB object store keyed by `id` is modelled as a list of tasks
whose ids are pairwise distinct where that matters. -/

/-- `getAllTasks`: all records, sorted by the comparator
`(a, b) => Date(b.created_at) - Date(a.created_at)`, i.e. newest created
first. -/
def getAllTasks (store : List Task) : List Task :=
  store.mergeSort (fun a b => decide (b.created_at ≤ a.created_at))

/-- The caller-supplied fields of `addTask`. -/
structure AddTaskData where
  title : String
  description : Option String := none
  due_date : Option String := none
  due_time : Option String := none

/-- JavaScript `x || null` on an optional string: an absent or empty
string becomes `null`. -/
def jsOrNull (s : Option String) : Option String :=
  match s with
  | some v => if v = "" then none else some v
  | none => none

/-- The task built by `addTask` (the generated id and the current time
are parameters). A new task starts not completed and not
reminder-shown. -/
def addTask (d : AddTaskData) (id : String) (now : Int) : Task :=
  { id := id
    title := d.title
    description := d.description.getD ""
    due_date := jsOrNull d.due_date
    due_time := jsOrNull d.due_time
    completed := false
    reminder_shown := false
    created_at := now
    updated_at := now }

/-- The merged record `updateTask` stores:
`{ ...existingTask, ...updates, updated_at: now, id: existingTask.id }`.
Present update fields override, then `updated_at` is refreshed and the id
is forced back to the existing task's id. -/
def applyUpdate (t : Task) (u : TaskUpdate) (now : Int) : Task :=
  { id := t.id
    title := u.title.getD t.title
    description := u.description.getD t.description
    due_date := u.due_date.getD t.due_date
    due_time := u.due_time.getD t.due_time
    completed := u.completed.getD t.completed
    reminder_shown := u.reminder_shown.getD t.reminder_shown
    created_at := u.created_at.getD t.created_at
    updated_at := now }

/-- `updateTask`: fetch the record by id; if absent, reject with
`Task not found`; otherwise `put` the merged record back and resolve with
it. -/
def updateTask (store : List Task) (i : String) (u : TaskUpdate) (now : Int) :
    Except String (List Task × Task) :=
  match store.find? (fun t => t.id == i) with
  | none => Except.error "Task not found"
  | some t =>
    let t1 := applyUpdate t u now
    Except.ok (store.map (fun x => if x.id == i then t1 else x), t1)

/-- `deleteTask`: IndexedDB `store.delete(id)` succeeds whether or not a
record with that key exists, so the operation always resolves, with the
record removed when present. -/
def deleteTask (store : List Task) (i : String) : Except String (List Task) :=
  Except.ok (store.filter (fun t => t.id != i))

/-- The `useTasks` hook's `updateTask` wrapper: on success it swaps the
updated record into the local list and reports `success: true`; on
rejection it leaves the list unchanged and reports `success: false`. -/
def hookUpdateTask (store : List Task) (i : String) (u : TaskUpdate) (now : Int) :
    List Task × Bool :=
  match updateTask store i u now with
  | Except.ok r => (r.1, true)
  | Except.error _ => (store, false)

/-- The scanner's eligibility predicate on one task, relative to the
dedup set `S` and the current time `now` (both due components present,
not completed, not already shown, id not in the dedup set, and the
combined due timestamp is at most `now` and at most 60 s old). -/
def eligible (S : List String) (now : Int) (t : Task) : Prop :=
  t.due_date.isSome = true ∧ t.due_time.isSome = true ∧
  t.completed = false ∧ t.reminder_shown = false ∧
  t.id ∉ S ∧
  ∃ T, taskDueMs t = some T ∧ T ≤ now ∧ now - T ≤ 60000

/-! ### Concrete fixtures used by the witness theorems -/

/-- A pending task due 2024-01-01 09:00. -/
def taskEx : Task :=
  { id := "t1", title := "pay rent", description := "", due_date := some "2024-01-01",
    due_time := some "09:00", completed := false, reminder_shown := false,
    created_at := 0, updated_at := 0 }

/-- The same task with its reminder already shown. -/
def taskShownEx : Task := { taskEx with reminder_shown := true }

/-- The same task completed. -/
def taskDoneEx : Task := { taskEx with completed := true }

/-- The due timestamp of `taskEx`. -/
def dueEx : Int := dueTimeMs 2024 1 1 9 0

/-- A tick time five seconds past the due timestamp. -/
def nowEx : Int := dueEx + 5000

/-- A fresh scanner state. -/
def stEx : ScannerState := { checkedTasks := [], lastCheckTime := 0 }

/-- A second pending task with a distinct id and the same due time. -/
def task2Ex : Task := { taskEx with id := "t2" }

/-- A scanner state whose dedup set already holds the example id. -/
def stChecked : ScannerState := { checkedTasks := ["t1"], lastCheckTime := 0 }

/-- A partial update that changes only the due date. -/
def upd8Ex : TaskUpdate := { due_date := some (some "2024-02-02") }

/-! ### Basic lemmas -/

/-- A dedup-set membership test is the same as list membership. -/
theorem contains_eq_false_iff {S : List String} {i : String} :
    S.contains i = false ↔ i ∉ S := by
  simp [List.contains]

/-- A task whose combined due timestamp parses has both due components
present. -/
theorem taskDueMs_isSome {t : Task} {T : Int} (h : taskDueMs t = some T) :
    t.due_date.isSome = true ∧ t.due_time.isSome = true := by
  unfold taskDueMs at h
  rcases hd : t.due_date with _ | d <;> rcases ht : t.due_time with _ | tm <;>
    rw [hd, ht] at h <;> simp_all

/-- Eligibility against a larger dedup set implies eligibility against a
smaller one. -/
theorem eligible_of_cons {S : List String} {j : String} {now : Int} {t : Task}
    (h : eligible (j :: S) now t) : eligible S now t := by
  obtain ⟨h1, h2, h3, h4, h5, h6⟩ := h
  exact ⟨h1, h2, h3, h4, fun hm => h5 (List.mem_cons_of_mem _ hm), h6⟩

/-- Eligibility is preserved when a different id enters the dedup set. -/
theorem eligible_cons_of_ne {S : List String} {j : String} {now : Int} {t : Task}
    (h : eligible S now t) (hne : t.id ≠ j) : eligible (j :: S) now t := by
  obtain ⟨h1, h2, h3, h4, h5, h6⟩ := h
  refine ⟨h1, h2, h3, h4, ?_, h6⟩
  intro hm
  rcases List.mem_cons.mp hm with h | h
  · exact hne h
  · exact h5 h

/-! ### Scanner-loop lemmas -/

/-- The scan never removes an id from the dedup set. -/
theorem scan_checked_subset {i : String} (now : Int) :
    ∀ (L : List Task) (S : List String), i ∈ S → i ∈ (scanTasks S now L).1 := by
  intro L
  induction L with
  | nil => intro S h; exact h
  | cons task rest ih =>
    intro S h
    by_cases h1 : (task.completed || task.reminder_shown || task.due_date.isNone
        || task.due_time.isNone) = true
    · simp only [scanTasks, h1, if_true]
      exact ih S h
    · rw [Bool.not_eq_true] at h1
      by_cases h2 : S.contains task.id = true
      · simp only [scanTasks, h1, h2]
        simp only [Bool.false_eq_true, if_false, if_true]
        exact ih S h
      · rw [Bool.not_eq_true] at h2
        rcases hT : taskDueMs task with _ | T
        · simp only [scanTasks, h1, h2, hT]
          simp only [Bool.false_eq_true, if_false]
          exact ih S h
        · by_cases h3 : (T - now).natAbs ≤ 60000 ∧ T ≤ now
          · simp only [scanTasks, h1, h2, hT]
            simp only [Bool.false_eq_true, if_false, if_pos h3]
            exact ih (task.id :: S) (List.mem_cons_of_mem _ h)
          · simp only [scanTasks, h1, h2, hT]
            simp only [Bool.false_eq_true, if_false, if_neg h3]
            exact ih S h

/-- The equation for a scan step that selects the head task. -/
theorem scanTasks_select_snd {S : List String} {now : Int} {task : Task}
    {rest : List Task} {T : Int}
    (h1 : (task.completed || task.reminder_shown || task.due_date.isNone
        || task.due_time.isNone) = false)
    (h2 : S.contains task.id = false)
    (hT : taskDueMs task = some T)
    (h3 : (T - now).natAbs ≤ 60000 ∧ T ≤ now) :
    (scanTasks S now (task :: rest)).2 =
      Effect.notify task :: Effect.update task.id reminderShownUpdate ::
        (scanTasks (task.id :: S) now rest).2 := by
  simp only [scanTasks, h1, h2, hT, Bool.false_eq_true, if_false, if_pos h3]

/-- Case analysis on one step of the scan loop: the head task is either
skipped (scan state and effects are those of the tail) or selected (its
notification and store-update effects are emitted and its id enters the
dedup set). -/
theorem scanTasks_cons_cases (S : List String) (now : Int) (task : Task)
    (rest : List Task) {motive : Prop}
    (hskip : scanTasks S now (task :: rest) = scanTasks S now rest → motive)
    (hsel : ∀ T,
      (task.completed || task.reminder_shown || task.due_date.isNone
        || task.due_time.isNone) = false →
      S.contains task.id = false →
      taskDueMs task = some T → (T - now).natAbs ≤ 60000 → T ≤ now →
      (scanTasks S now (task :: rest)).1 = (scanTasks (task.id :: S) now rest).1 →
      (scanTasks S now (task :: rest)).2 =
        Effect.notify task :: Effect.update task.id reminderShownUpdate ::
          (scanTasks (task.id :: S) now rest).2 → motive) :
    motive := by
  by_cases h1 : (task.completed || task.reminder_shown || task.due_date.isNone
      || task.due_time.isNone) = true
  · exact hskip (by simp only [scanTasks, h1, if_true])
  · rw [Bool.not_eq_true] at h1
    by_cases h2 : S.contains task.id = true
    · exact hskip (by simp only [scanTasks, h1, h2, Bool.false_eq_true, if_false, if_true])
    · rw [Bool.not_eq_true] at h2
      rcases hT : taskDueMs task with _ | T
      · exact hskip (by simp only [scanTasks, h1, h2, hT, Bool.false_eq_true, if_false])
      · by_cases h3 : (T - now).natAbs ≤ 60000 ∧ T ≤ now
        · refine hsel T h1 h2 hT h3.1 h3.2 ?_ (scanTasks_select_snd h1 h2 hT h3)
          simp only [scanTasks, h1, h2, hT, Bool.false_eq_true, if_false, if_pos h3]
        · exact hskip (by simp only [scanTasks, h1, h2, hT, Bool.false_eq_true, if_false,
            if_neg h3])

/-- Soundness of the scan: a dispatched notification comes from a task of
the list that is eligible with respect to the initial dedup set. -/
theorem scan_sound {t : Task} (now : Int) :
    ∀ (L : List Task) (S : List String),
      Effect.notify t ∈ (scanTasks S now L).2 → t ∈ L ∧ eligible S now t := by
  intro L
  induction L with
  | nil => intro S h; simp [scanTasks] at h
  | cons task rest ih =>
    intro S h
    refine scanTasks_cons_cases S now task rest ?_ ?_
    · intro heq
      rw [heq] at h
      obtain ⟨hm, he⟩ := ih S h
      exact ⟨List.mem_cons_of_mem _ hm, he⟩
    · intro T hg hc hT hnat hle _ heq2
      rw [heq2] at h
      simp only [List.mem_cons] at h
      rcases h with h | h | h
      · injection h with h'
        subst h'
        simp only [Bool.or_eq_false_iff] at hg
        exact ⟨List.mem_cons_self _ _, (taskDueMs_isSome hT).1, (taskDueMs_isSome hT).2,
          hg.1.1.1, hg.1.1.2, contains_eq_false_iff.mp hc, T, hT, hle, by omega⟩
      · exact Effect.noConfusion h
      · obtain ⟨hm, he⟩ := ih (task.id :: S) h
        exact ⟨List.mem_cons_of_mem _ hm, eligible_of_cons he⟩

/-- Completeness of the scan: when the listed ids are distinct, every
task of the list eligible with respect to the initial dedup set has its
notification dispatched. -/
theorem scan_complete {t : Task} (now : Int) :
    ∀ (L : List Task) (S : List String), (L.map Task.id).Nodup → t ∈ L →
      eligible S now t → Effect.notify t ∈ (scanTasks S now L).2 := by
  intro L
  induction L with
  | nil => intro S _ ht _; cases ht
  | cons task rest ih =>
    intro S hnd ht he
    rw [List.map_cons, List.nodup_cons] at hnd
    rcases List.mem_cons.mp ht with rfl | hrest
    · obtain ⟨hd1, hd2, hco, hrs, hni, T, hT, hle, hwin⟩ := he
      have hguard : (t.completed || t.reminder_shown || t.due_date.isNone
          || t.due_time.isNone) = false := by
        rcases hdd : t.due_date with _ | d
        · rw [hdd] at hd1; simp at hd1
        · rcases hdt : t.due_time with _ | tm
          · rw [hdt] at hd2; simp at hd2
          · simp [hdd, hdt, hco, hrs]
      have hcon : S.contains t.id = false := contains_eq_false_iff.mpr hni
      have hnat : (T - now).natAbs ≤ 60000 := by omega
      rw [scanTasks_select_snd hguard hcon hT ⟨hnat, hle⟩]
      exact List.mem_cons_self _ _
    · have hne : t.id ≠ task.id := by
        intro hEq
        exact hnd.1 (hEq ▸ List.mem_map_of_mem Task.id hrest)
      refine scanTasks_cons_cases S now task rest ?_ ?_
      · intro heq
        rw [heq]
        exact ih S hnd.2 hrest he
      · intro T hg hc hT hnat hle _ heq2
        rw [heq2]
        exact List.mem_cons_of_mem _ (List.mem_cons_of_mem _
          (ih (task.id :: S) hnd.2 hrest (eligible_cons_of_ne he hne)))

/-- A task id already in the dedup set is never the subject of any effect
of the scan. -/
theorem scan_skip_checked {i : String} (now : Int) :
    ∀ (L : List Task) (S : List String), i ∈ S →
      ∀ e ∈ (scanTasks S now L).2, e.touchesId i = false := by
  intro L
  induction L with
  | nil => intro S _ e he; simp [scanTasks] at he
  | cons task rest ih =>
    intro S hS e he
    refine scanTasks_cons_cases S now task rest ?_ ?_
    · intro heq
      rw [heq] at he
      exact ih S hS e he
    · intro T hg hc hT hnat hle _ heq2
      rw [heq2] at he
      have hne : task.id ≠ i := by
        intro hEq
        rw [contains_eq_false_iff] at hc
        exact hc (hEq ▸ hS)
      simp only [List.mem_cons] at he
      rcases he with rfl | rfl | hmem
      · simpa [Effect.touchesId, Effect.idOf] using hne
      · simpa [Effect.touchesId, Effect.idOf] using hne
      · exact ih (task.id :: S) (List.mem_cons_of_mem _ hS) e hmem

/-- Every effect of the scan belongs to a listed task that is neither
completed nor already reminder-shown, and is its notification or its
`reminder_shown` store update. -/
theorem scan_effect_shape (now : Int) :
    ∀ (L : List Task) (S : List String), ∀ e ∈ (scanTasks S now L).2,
      ∃ task, task ∈ L ∧ task.completed = false ∧ task.reminder_shown = false ∧
        (e = Effect.notify task ∨ e = Effect.update task.id reminderShownUpdate) := by
  intro L
  induction L with
  | nil => intro S e he; simp [scanTasks] at he
  | cons task rest ih =>
    intro S e he
    refine scanTasks_cons_cases S now task rest ?_ ?_
    · intro heq
      rw [heq] at he
      obtain ⟨task', hm, h1, h2, h3⟩ := ih S e he
      exact ⟨task', List.mem_cons_of_mem _ hm, h1, h2, h3⟩
    · intro T hg hc hT hnat hle _ heq2
      rw [heq2] at he
      simp only [Bool.or_eq_false_iff] at hg
      simp only [List.mem_cons] at he
      rcases he with rfl | rfl | hmem
      · exact ⟨task, List.mem_cons_self _ _, hg.1.1.1, hg.1.1.2, Or.inl rfl⟩
      · exact ⟨task, List.mem_cons_self _ _, hg.1.1.1, hg.1.1.2, Or.inr rfl⟩
      · obtain ⟨task', hm, h1, h2, h3⟩ := ih (task.id :: S) e hmem
        exact ⟨task', List.mem_cons_of_mem _ hm, h1, h2, h3⟩

/-- Every store-update effect of the scan is preceded by the notification
of the task it belongs to: the two-element sequence is a sublist of the
effect trace. -/
theorem scan_update_sublist {i : String} {u : TaskUpdate} (now : Int) :
    ∀ (L : List Task) (S : List String),
      Effect.update i u ∈ (scanTasks S now L).2 →
      ∃ task, task.id = i ∧
        List.Sublist [Effect.notify task, Effect.update i u] (scanTasks S now L).2 := by
  intro L
  induction L with
  | nil => intro S h; simp [scanTasks] at h
  | cons task rest ih =>
    intro S h
    refine scanTasks_cons_cases S now task rest ?_ ?_
    · intro heq
      rw [heq] at h ⊢
      exact ih S h
    · intro T hg hc hT hnat hle _ heq2
      rw [heq2] at h ⊢
      simp only [List.mem_cons] at h
      rcases h with h | h | h
      · exact Effect.noConfusion h
      · injection h with h1 h2
        subst h1
        subst h2
        exact ⟨task, rfl,
          ((List.nil_sublist _).cons₂ _).cons₂ _⟩
      · obtain ⟨task', hid, hsub⟩ := ih (task.id :: S) h
        exact ⟨task', hid, (hsub.cons _).cons _⟩

/-! ### Tick-level lemmas -/

/-- A throttled invocation changes nothing and dispatches nothing. -/
theorem checkReminders_throttled (st : ScannerState) (tasks : List Task) (now : Int)
    (h : now - st.lastCheckTime < 1000) : checkReminders st tasks now = (st, []) := by
  simp [checkReminders, h]

/-- An unthrottled invocation records the check time and runs the scan. -/
theorem checkReminders_run (st : ScannerState) (tasks : List Task) (now : Int)
    (h : ¬ now - st.lastCheckTime < 1000) :
    checkReminders st tasks now =
      ({ checkedTasks := (scanTasks st.checkedTasks now tasks).1, lastCheckTime := now },
        (scanTasks st.checkedTasks now tasks).2) := by
  simp [checkReminders, h]

/-- Every effect of one invocation belongs to a listed task that is
neither completed nor already reminder-shown. -/
theorem checkReminders_effect_shape {st : ScannerState} {tasks : List Task} {now : Int} :
    ∀ e ∈ (checkReminders st tasks now).2,
      ∃ task, task ∈ tasks ∧ task.completed = false ∧ task.reminder_shown = false ∧
        (e = Effect.notify task ∨ e = Effect.update task.id reminderShownUpdate) := by
  by_cases h : now - st.lastCheckTime < 1000
  · rw [checkReminders_throttled st tasks now h]
    intro e he
    cases he
  · rw [checkReminders_run st tasks now h]
    exact scan_effect_shape now tasks st.checkedTasks

/-! ### Dedup-set clearing lemmas -/

/-- Folding deletions over a list of ids never adds an id. -/
theorem not_mem_foldl_filter {i : String} :
    ∀ (ids S : List String), i ∉ S →
      i ∉ ids.foldl (fun s j => s.filter (fun k => k != j)) S := by
  intro ids
  induction ids with
  | nil => intro S h; exact h
  | cons j rest ih =>
    intro S h
    simp only [List.foldl_cons]
    apply ih
    intro hmem
    exact h (List.mem_filter.mp hmem).1

/-- Folding deletions over a list of ids keeps an id that is in none of
them. -/
theorem mem_foldl_filter_of_not_mem {i : String} :
    ∀ (ids S : List String), i ∈ S → i ∉ ids →
      i ∈ ids.foldl (fun s j => s.filter (fun k => k != j)) S := by
  intro ids
  induction ids with
  | nil => intro S h _; exact h
  | cons j rest ih =>
    intro S hS hni
    simp only [List.foldl_cons]
    refine ih _ ?_ (fun h => hni (List.mem_cons_of_mem _ h))
    refine List.mem_filter.mpr ⟨hS, ?_⟩
    have : i ≠ j := fun h => hni (h ▸ List.mem_cons_self _ _)
    simpa using this

/-- Folding deletions over a list of ids removes every id in it. -/
theorem not_mem_foldl_filter_of_mem {i : String} :
    ∀ (ids S : List String), i ∈ ids →
      i ∉ ids.foldl (fun s j => s.filter (fun k => k != j)) S := by
  intro ids
  induction ids with
  | nil => intro S h; cases h
  | cons j rest ih =>
    intro S hmem
    by_cases hj : i = j
    · subst hj
      simp only [List.foldl_cons]
      apply not_mem_foldl_filter
      intro h
      have := (List.mem_filter.mp h).2
      simp at this
    · have : i ∈ rest := by
        rcases List.mem_cons.mp hmem with h | h
        · exact absurd h hj
        · exact h
      simp only [List.foldl_cons]
      exact ih _ this

/-- The cleanup effect keeps an id whose task is nowhere completed in the
current list. -/
theorem mem_clearCompleted {i : String} {S : List String} {tasks : List Task}
    (hS : i ∈ S) (h : ∀ t ∈ tasks, t.id = i → t.completed = false) :
    i ∈ clearCompleted S tasks := by
  refine mem_foldl_filter_of_not_mem _ _ hS ?_
  intro hmem
  obtain ⟨t, ht, hid⟩ := List.mem_map.mp hmem
  have hf := List.mem_filter.mp ht
  have hc := h t hf.1 hid
  rw [hc] at hf
  exact Bool.false_ne_true hf.2

/-- The cleanup effect removes the id of every completed task in the
current list. -/
theorem not_mem_clearCompleted {S : List String} {tasks : List Task} {u : Task}
    (hu : u ∈ tasks) (hc : u.completed = true) :
    u.id ∉ clearCompleted S tasks := by
  refine not_mem_foldl_filter_of_mem _ _ ?_
  exact List.mem_map.mpr ⟨u, List.mem_filter.mpr ⟨hu, hc⟩, rfl⟩

/-! ### Run-level lemmas -/

/-- Every effect of a run belongs to some event's task list, to a task
neither completed nor already reminder-shown. -/
theorem run_effect_shape (st : ScannerState) (evs : List AppEvent) :
    ∀ e ∈ (runEvents st evs).2,
      ∃ ev, ev ∈ evs ∧ ∃ task, task ∈ ev.taskList ∧ task.completed = false ∧
        task.reminder_shown = false ∧
        (e = Effect.notify task ∨ e = Effect.update task.id reminderShownUpdate) := by
  induction evs generalizing st with
  | nil => intro e he; cases he
  | cons ev rest ih =>
    intro e he
    simp only [runEvents, List.mem_append] at he
    rcases he with he | he
    · cases ev with
      | tick now tasks =>
        obtain ⟨task, hm, h1, h2, h3⟩ := checkReminders_effect_shape e he
        exact ⟨AppEvent.tick now tasks, List.mem_cons_self _ _, task, hm, h1, h2, h3⟩
      | sync tasks => cases he
    · obtain ⟨ev', hm, task, h⟩ := ih _ e he
      exact ⟨ev', List.mem_cons_of_mem _ hm, task, h⟩

/-- If a task id is in the dedup set and no event of a run lists it as a
completed task, the id stays in the dedup set throughout the run and no
effect of the run concerns it. -/
theorem run_marker_persists {i : String} (st : ScannerState) (evs : List AppEvent)
    (hmem : i ∈ st.checkedTasks)
    (hnc : ∀ ev ∈ evs, ∀ t ∈ ev.taskList, t.id = i → t.completed = false) :
    i ∈ (runEvents st evs).1.checkedTasks ∧
      ∀ e ∈ (runEvents st evs).2, e.touchesId i = false := by
  induction evs generalizing st with
  | nil => exact ⟨hmem, fun e he => absurd he (by simp [runEvents])⟩
  | cons ev rest ih =>
    have hstep : i ∈ (stepEvent st ev).1.checkedTasks ∧
        ∀ e ∈ (stepEvent st ev).2, e.touchesId i = false := by
      cases ev with
      | tick now tasks =>
        by_cases h : now - st.lastCheckTime < 1000
        · simp only [stepEvent, checkReminders_throttled st tasks now h]
          exact ⟨hmem, fun e he => absurd he (by simp)⟩
        · simp only [stepEvent, checkReminders_run st tasks now h]
          exact ⟨scan_checked_subset now tasks st.checkedTasks hmem,
            scan_skip_checked now tasks st.checkedTasks hmem⟩
      | sync tasks =>
        simp only [stepEvent]
        refine ⟨mem_clearCompleted hmem ?_, fun e he => absurd he (by simp)⟩
        exact hnc (AppEvent.sync tasks) (List.mem_cons_self _ _)
    have hrest := ih (stepEvent st ev).1 hstep.1
      (fun ev' h => hnc ev' (List.mem_cons_of_mem _ h))
    refine ⟨hrest.1, ?_⟩
    intro e he
    simp only [runEvents, List.mem_append] at he
    rcases he with he | he
    · exact hstep.2 e he
    · exact hrest.2 e he

/-- Every store-update effect of a run is preceded in the run's effect
trace by the notification of the task it belongs to. -/
theorem run_update_sublist {i : String} {u : TaskUpdate} (st : ScannerState)
    (evs : List AppEvent) (h : Effect.update i u ∈ (runEvents st evs).2) :
    ∃ task, task.id = i ∧
      List.Sublist [Effect.notify task, Effect.update i u] (runEvents st evs).2 := by
  induction evs generalizing st with
  | nil => cases h
  | cons ev rest ih =>
    simp only [runEvents, List.mem_append] at h
    rcases h with h | h
    · have hstep : ∃ task, task.id = i ∧
          List.Sublist [Effect.notify task, Effect.update i u] (stepEvent st ev).2 := by
        cases ev with
        | tick now tasks =>
          by_cases hth : now - st.lastCheckTime < 1000
          · rw [stepEvent, checkReminders_throttled st tasks now hth] at h
            cases h
          · rw [stepEvent, checkReminders_run st tasks now hth] at h ⊢
            exact scan_update_sublist now tasks st.checkedTasks h
        | sync tasks => cases h
      obtain ⟨task, hid, hsub⟩ := hstep
      exact ⟨task, hid, by
        simp only [runEvents]
        exact hsub.trans (List.sublist_append_left _ _)⟩
    · obtain ⟨task, hid, hsub⟩ := ih _ h
      exact ⟨task, hid, by
        simp only [runEvents]
        exact hsub.trans (List.sublist_append_right _ _)⟩

/-! ### Store lemmas -/

/-- When the stored ids are pairwise distinct, the fetch inside
`updateTask` finds exactly the stored task with the requested id. -/
theorem find?_id_eq {store : List Task} {t : Task}
    (hnd : (store.map Task.id).Nodup) (ht : t ∈ store) :
    store.find? (fun x => x.id == t.id) = some t := by
  induction store with
  | nil => cases ht
  | cons a rest ih =>
    rw [List.map_cons, List.nodup_cons] at hnd
    rcases List.mem_cons.mp ht with rfl | hrest
    · simp [List.find?_cons]
    · have hne : (a.id == t.id) = false := by
        refine beq_eq_false_iff_ne.mpr ?_
        intro hEq
        exact hnd.1 (hEq ▸ List.mem_map_of_mem Task.id hrest)
      simp only [List.find?_cons, hne]
      exact ih hnd.2 hrest

/-! ### The claims -/

/-- C1: on an (unthrottled) scanner tick with task list `L` whose ids are
distinct and current time `now`, a task `t` of `L` is selected for
reminder delivery (its notification effect is dispatched) iff `due_date`
and `due_time` are both present, `completed` is false, `reminder_shown`
is false, `t.id` is not in the in-memory dedup set, and the combined due
timestamp `T` satisfies `T ≤ now` and `now - T ≤ 60000` ms; in
particular, `t` is never selected before its due timestamp and never once
`now` exceeds `T + 60` s. -/
theorem C1_selection_iff (st : ScannerState) (L : List Task) (now : Int) (t : Task)
    (hth : 1000 ≤ now - st.lastCheckTime) (hnd : (L.map Task.id).Nodup) :
    (Effect.notify t ∈ (checkReminders st L now).2 ↔
      t ∈ L ∧ eligible st.checkedTasks now t) ∧
    (∀ T, taskDueMs t = some T → (now < T ∨ T + 60000 < now) →
      Effect.notify t ∉ (checkReminders st L now).2) := by
  rw [checkReminders_run st L now (show ¬ now - st.lastCheckTime < 1000 by omega)]
  constructor
  · constructor
    · intro h
      exact scan_sound now L st.checkedTasks h
    · rintro ⟨hm, he⟩
      exact scan_complete now L st.checkedTasks hnd hm he
  · rintro T hT hout h
    obtain ⟨-, -, -, -, -, T', hT', hle, hwin⟩ := (scan_sound now L st.checkedTasks h).2
    rw [hT] at hT'
    injection hT' with hEq
    rcases hout with hout | hout <;> omega

/-- C2: once `reminder_shown` is true for a task id in every task list a
run of scanner ticks sees, no tick of the run dispatches any effect for
that id — no notification fires and no further `reminder_shown` write is
issued, for all future ticks, however many run. -/
theorem C2_shown_never_reselected (st : ScannerState) (evs : List AppEvent) (i : String)
    (h : ∀ ev ∈ evs, ∀ t ∈ ev.taskList, t.id = i → t.reminder_shown = true) :
    ∀ e ∈ (runEvents st evs).2, e.touchesId i = false := by
  intro e he
  obtain ⟨ev, hev, task, hm, hco, hrs, hshape⟩ := run_effect_shape st evs e he
  have hne : task.id ≠ i := by
    intro hEq
    rw [h ev hev task hm hEq] at hrs
    exact Bool.noConfusion hrs
  rcases hshape with rfl | rfl
  · simpa [Effect.touchesId, Effect.idOf] using hne
  · simpa [Effect.touchesId, Effect.idOf] using hne

/-- C3: in every execution path, the durable `reminder_shown = true`
store update for a task is dispatched only after that task's notification
side effect has been invoked: every update effect in a run's effect trace
is preceded by the matching notification. -/
theorem C3_notify_precedes_update (st : ScannerState) (evs : List AppEvent)
    (i : String) (u : TaskUpdate)
    (h : Effect.update i u ∈ (runEvents st evs).2) :
    ∃ task, task.id = i ∧
      List.Sublist [Effect.notify task, Effect.update i u] (runEvents st evs).2 :=
  run_update_sublist st evs h

/-- C4: the scanner state never consults the result of the store write,
so when the write fails (here: the task has vanished from the store, so
`updateTask` rejects and the hook reports failure with the store
unchanged and the durable flag still false), the in-memory handled-set
entry remains set and no later tick of the process lifetime (in which the
task is never listed as completed) dispatches any effect for that id. -/
theorem C4_failed_write_keeps_marker (st : ScannerState) (evs : List AppEvent)
    (store : List Task) (i : String) (u : TaskUpdate) (now : Int)
    (hmem : i ∈ st.checkedTasks)
    (hnc : ∀ ev ∈ evs, ∀ t ∈ ev.taskList, t.id = i → t.completed = false)
    (hgone : ∀ t ∈ store, t.id ≠ i) :
    (i ∈ (runEvents st evs).1.checkedTasks ∧
      ∀ e ∈ (runEvents st evs).2, e.touchesId i = false) ∧
    hookUpdateTask store i u now = (store, false) := by
  refine ⟨run_marker_persists st evs hmem hnc, ?_⟩
  unfold hookUpdateTask updateTask
  rw [List.find?_eq_none.mpr (fun x hx => by simpa using hgone x hx)]

/-- C5: if the scanner is invoked again less than the polling interval
(1000 ms) after a previous (unthrottled) evaluation — in particular
within 500 ms — the second invocation evaluates no task, dispatches no
notification, issues no store write, and leaves the state unchanged. -/
theorem C5_throttle_suppresses_eval (st : ScannerState) (L0 L1 : List Task) (t0 t1 : Int)
    (h0 : 1000 ≤ t0 - st.lastCheckTime) (h1 : t1 - t0 < 1000) :
    checkReminders (checkReminders st L0 t0).1 L1 t1 =
      ((checkReminders st L0 t0).1, []) := by
  rw [checkReminders_run st L0 t0 (show ¬ t0 - st.lastCheckTime < 1000 by omega)]
  exact checkReminders_throttled _ L1 t1 (show t1 - t0 < 1000 from h1)

/-- C6: a completed task is never selected by the scanner: no tick of any
run dispatches its notification, regardless of `reminder_shown` and of
its due timestamp. -/
theorem C6_completed_never_selected (st : ScannerState) (evs : List AppEvent) (t : Task)
    (h : t.completed = true) : Effect.notify t ∉ (runEvents st evs).2 := by
  intro hmem
  obtain ⟨ev, hev, task, hm, hco, hrs, hshape⟩ := run_effect_shape st evs _ hmem
  rcases hshape with heq | heq
  · injection heq with h'
    subst h'
    rw [h] at hco
    exact Bool.noConfusion hco
  · exact Effect.noConfusion heq

/-- C7: a completed task's id is removed from the in-memory handled set
by the cleanup effect; consequently a task that was completed (clearing
its marker) and then appears incomplete again with `reminder_shown`
false and a due timestamp at most `now` and within the 60-second window
is selected by the next (unthrottled) evaluation and its notification
fires again. -/
theorem C7_uncomplete_rearms (st : ScannerState) (L1 L2 : List Task) (u t : Task)
    (now T : Int)
    (hu : u ∈ L1) (huid : u.id = t.id) (huc : u.completed = true)
    (ht : t ∈ L2) (hnd : (L2.map Task.id).Nodup)
    (hc : t.completed = false) (hr : t.reminder_shown = false)
    (hT : taskDueMs t = some T) (hle : T ≤ now) (hwin : now - T ≤ 60000)
    (hth : 1000 ≤ now - st.lastCheckTime) :
    t.id ∉ (stepEvent st (AppEvent.sync L1)).1.checkedTasks ∧
    Effect.notify t ∈
      (runEvents st [AppEvent.sync L1, AppEvent.tick now L2]).2 := by
  have hclear : t.id ∉ clearCompleted st.checkedTasks L1 :=
    huid ▸ not_mem_clearCompleted hu huc
  have hel : eligible (clearCompleted st.checkedTasks L1) now t :=
    ⟨(taskDueMs_isSome hT).1, (taskDueMs_isSome hT).2, hc, hr, hclear, T, hT, hle, hwin⟩
  refine ⟨hclear, ?_⟩
  simp only [runEvents, stepEvent, List.nil_append, List.append_nil]
  rw [checkReminders_run ⟨clearCompleted st.checkedTasks L1, st.lastCheckTime⟩ L2 now
    (show ¬ now - st.lastCheckTime < 1000 by omega)]
  exact scan_complete now L2 _ hnd ht hel

/-- C8: the store's `updateTask` does not reset `reminder_shown` when due
fields change: for a stored task with `reminder_shown = true` and a
partial update not mentioning `reminder_shown`, the resulting record
still has `reminder_shown = true`; only supplied fields are merged, the
original id is preserved even if the update names one, and `updated_at`
is refreshed. -/
theorem C8_update_preserves_reminder_shown
    (store : List Task) (t : Task) (u : TaskUpdate) (now : Int)
    (hnd : (store.map Task.id).Nodup) (ht : t ∈ store)
    (hshown : t.reminder_shown = true) (hu : u.reminder_shown = none) :
    ∃ store2 r, updateTask store t.id u now = Except.ok (store2, r) ∧
      r.reminder_shown = true ∧
      r.id = t.id ∧
      r.updated_at = now ∧
      r.title = u.title.getD t.title ∧
      r.description = u.description.getD t.description ∧
      r.due_date = u.due_date.getD t.due_date ∧
      r.due_time = u.due_time.getD t.due_time ∧
      r.completed = u.completed.getD t.completed := by
  refine ⟨store.map (fun x => if x.id == t.id then applyUpdate t u now else x),
    applyUpdate t u now, ?_, ?_, rfl, rfl, rfl, rfl, rfl, rfl, rfl⟩
  · unfold updateTask
    rw [find?_id_eq hnd ht]
  · simp [applyUpdate, hu, hshown]

/-- C9: `getAllTasks` returns the tasks newest created first — every
adjacent pair of the returned list has the earlier element's `created_at`
at least the later element's — and every task built by `addTask` starts
with `completed = false` and `reminder_shown = false`. -/
theorem C9_listAll_order_and_create_flags :
    (∀ store : List Task,
      List.Chain' (fun a b => b.created_at ≤ a.created_at) (getAllTasks store)) ∧
    (∀ (d : AddTaskData) (id : String) (now : Int),
      (addTask d id now).completed = false ∧ (addTask d id now).reminder_shown = false) := by
  constructor
  · intro store
    have hp : (store.mergeSort (fun a b => decide (b.created_at ≤ a.created_at))).Pairwise
        (fun a b => decide (b.created_at ≤ a.created_at) = true) := by
      refine List.sorted_mergeSort ?_ ?_ store
      · intro a b c hab hbc
        simp only [decide_eq_true_eq] at hab hbc ⊢
        omega
      · intro a b
        simp only [Bool.or_eq_true, decide_eq_true_eq]
        omega
    unfold getAllTasks
    exact (hp.imp (fun h => of_decide_eq_true h)).chain'
  · intro d id now
    exact ⟨rfl, rfl⟩

/-- C10: a delete for an id not in the store resolves successfully and
leaves the store unchanged, while an update for an absent id rejects with
the `Task not found` error. -/
theorem C10_delete_missing_id_succeeds (store : List Task) (i : String)
    (u : TaskUpdate) (now : Int) (h : ∀ t ∈ store, t.id ≠ i) :
    deleteTask store i = Except.ok store ∧
    updateTask store i u now = Except.error "Task not found" := by
  constructor
  · unfold deleteTask
    congr 1
    refine List.filter_eq_self.mpr ?_
    intro t ht
    simpa using h t ht
  · unfold updateTask
    rw [List.find?_eq_none.mpr (fun x hx => by simpa using h x hx)]

/-! ### Witnesses: the claim theorems applied at concrete inputs -/

/-- Witness for C1: a fresh state, a one-task list, a tick 5 s past due. -/
theorem C1_selection_iff_witness :
    Effect.notify taskEx ∈ (checkReminders stEx [taskEx] nowEx).2 ↔
      taskEx ∈ [taskEx] ∧ eligible stEx.checkedTasks nowEx taskEx :=
  (C1_selection_iff stEx [taskEx] nowEx taskEx (by decide) (by decide)).1

/-- Witness for C2: on a tick over an already-shown task and a distinct
pending one, the dispatched notification does not concern the shown id. -/
theorem C2_shown_never_reselected_witness :
    (Effect.notify task2Ex).touchesId "t1" = false :=
  C2_shown_never_reselected stEx [AppEvent.tick nowEx [taskShownEx, task2Ex]] "t1"
    (by decide) (Effect.notify task2Ex) (by decide)

/-- Witness for C3: in the run that selects the example task, its store
update is preceded by its notification. -/
theorem C3_notify_precedes_update_witness :
    ∃ task, task.id = "t1" ∧
      List.Sublist [Effect.notify task, Effect.update "t1" reminderShownUpdate]
        (runEvents stEx [AppEvent.tick nowEx [taskEx]]).2 :=
  C3_notify_precedes_update stEx [AppEvent.tick nowEx [taskEx]] "t1" reminderShownUpdate
    (by decide)

/-- Witness for C4: with the id already handled and the task vanished
from the store, the marker persists, nothing fires, and the hook update
reports failure with the store unchanged. -/
theorem C4_failed_write_keeps_marker_witness :
    (("t1" ∈ (runEvents stChecked [AppEvent.tick nowEx [taskEx]]).1.checkedTasks) ∧
      ∀ e ∈ (runEvents stChecked [AppEvent.tick nowEx [taskEx]]).2,
        e.touchesId "t1" = false) ∧
    hookUpdateTask [] "t1" reminderShownUpdate nowEx = ([], false) :=
  C4_failed_write_keeps_marker stChecked [AppEvent.tick nowEx [taskEx]] [] "t1"
    reminderShownUpdate nowEx (by decide) (by decide) (by decide)

/-- Witness for C5: an evaluation at 2000 ms throttles a reinvocation at
2400 ms. -/
theorem C5_throttle_suppresses_eval_witness :
    checkReminders (checkReminders stEx [] 2000).1 [] 2400 =
      ((checkReminders stEx [] 2000).1, []) :=
  C5_throttle_suppresses_eval stEx [] [] 2000 2400 (by decide) (by decide)

/-- Witness for C6: the completed example task is not selected even 5 s
past its due time. -/
theorem C6_completed_never_selected_witness :
    Effect.notify taskDoneEx ∉ (runEvents stEx [AppEvent.tick nowEx [taskDoneEx]]).2 :=
  C6_completed_never_selected stEx [AppEvent.tick nowEx [taskDoneEx]] taskDoneEx (by decide)

/-- Witness for C7: completing the task clears its handled marker and the
next tick re-fires it. -/
theorem C7_uncomplete_rearms_witness :
    taskEx.id ∉ (stepEvent stChecked (AppEvent.sync [taskDoneEx])).1.checkedTasks ∧
    Effect.notify taskEx ∈
      (runEvents stChecked [AppEvent.sync [taskDoneEx], AppEvent.tick nowEx [taskEx]]).2 :=
  C7_uncomplete_rearms stChecked [taskDoneEx] [taskEx] taskDoneEx taskEx nowEx dueEx
    (by decide) (by decide) (by decide) (by decide) (by decide) (by decide) (by decide)
    (by decide) (by decide) (by decide) (by decide)

/-- Witness for C8: changing only the due date of an already-reminded
task keeps `reminder_shown` true. -/
theorem C8_update_preserves_reminder_shown_witness :
    ∃ store2 r, updateTask [taskShownEx] taskShownEx.id upd8Ex 77 = Except.ok (store2, r) ∧
      r.reminder_shown = true ∧
      r.id = taskShownEx.id ∧
      r.updated_at = 77 ∧
      r.title = upd8Ex.title.getD taskShownEx.title ∧
      r.description = upd8Ex.description.getD taskShownEx.description ∧
      r.due_date = upd8Ex.due_date.getD taskShownEx.due_date ∧
      r.due_time = upd8Ex.due_time.getD taskShownEx.due_time ∧
      r.completed = upd8Ex.completed.getD taskShownEx.completed :=
  C8_update_preserves_reminder_shown [taskShownEx] taskShownEx upd8Ex 77
    (by decide) (by decide) (by decide) (by decide)

/-- Witness for C10: deleting an absent id resolves with the store
unchanged while updating it rejects. -/
theorem C10_delete_missing_id_succeeds_witness :
    deleteTask [taskEx] "zzz" = Except.ok [taskEx] ∧
    updateTask [taskEx] "zzz" reminderShownUpdate 5 = Except.error "Task not found" :=
  C10_delete_missing_id_succeeds [taskEx] "zzz" reminderShownUpdate 5 (by decide)

end TodoApp
